import Mathlib

/-!
# controllers/transcript.go

A shallow embedding of `src/controllers/transcript.go` (package `controllers`):
`getRawData`, `Transcript.getTranscript`, and the two gin handlers
`NewTranscript` and `ShowList`, together with the part of the Go standard
library the file calls (`strconv.ParseFloat`, `strconv.FormatFloat`, float64
addition, `strings.ReplaceAll`).

Go strings are embedded as Lean `String`, byte slices as `List UInt8`, Go
`error` values by their message (`err.Error()`).  The network, the body
reader, the XML decoder and `strconv.Quote` are taken as parameters (`World`).

`float64` is embedded exactly, with natural numbers for the mantissa and the
exponent.  `ParseFloat` follows `strconv` of Go 1.13 and later (decimal and
hexadecimal numbers, underscores between digits, `inf`, `infinity`, `nan`) and
returns the correctly rounded value; `FormatFloat` is the format `'f'` with a
fixed number of fraction digits.
-/

namespace Controllers

/-! ## float64 -/

/-- An IEEE 754 binary64 value.  `finite neg mant exp` denotes
`(-1)^neg * mant * 2^exp / 2^1074`; canonical values have `mant < 2^53`,
`exp ≤ 2045`, and `2^52 ≤ mant` unless `exp = 0` (subnormals and zeros). -/
inductive Float64 where
  | nan : Float64
  | inf (neg : Bool) : Float64
  | finite (neg : Bool) (mant : Nat) (exp : Nat) : Float64
  deriving DecidableEq, Repr

namespace Float64

/-- Number of binary digits of `n` (`0` for `0`); `fuel` bounds the recursion. -/
def bitLenAux : Nat → Nat → Nat
  | 0, _ => 0
  | fuel + 1, n => if n = 0 then 0 else bitLenAux fuel (n / 2) + 1

/-- Number of binary digits of `n`. -/
def bitLen (n : Nat) : Nat := bitLenAux n n

/-- The quotient `num / den` rounded to the nearest natural number, a tie
going to the even one. -/
def divRoundEven (num den : Nat) : Nat :=
  let q := num / den
  let r := num % den
  if 2 * r < den then q else if den < 2 * r then q + 1 else if q % 2 = 0 then q else q + 1

/-- The binary64 value nearest to `num / den` units of `2^-1074` (round to
nearest, ties to even): `inf` when it lies beyond the largest finite value. -/
def roundUnits (neg : Bool) (num den : Nat) : Float64 :=
  if num = 0 then finite neg 0 0
  else
    -- `k0 - 1 ≤ log2 (num / den) < k0 + 1`, and `k = ⌊log2 (num / den)⌋` when that is positive
    let k0 := bitLen num - bitLen den
    let k := if den * 2 ^ k0 ≤ num then k0 else k0 - 1
    -- the exponent that leaves 53 bits in the mantissa, `0` for subnormal values
    let e := k - 52
    let m := divRoundEven num (den * 2 ^ e)
    let (m, e) := if m = 2 ^ 53 then (2 ^ 52, e + 1) else (m, e)
    if 2045 < e then inf neg else finite neg m e

/-- The binary64 value nearest to the non-negative rational `num / den`
(round to nearest, ties to even). -/
def round (neg : Bool) (num den : Nat) : Float64 :=
  roundUnits neg (num * 2 ^ 1074) den

/-- Go's `x + y` on `float64` (IEEE 754 addition, round to nearest even). -/
def add : Float64 → Float64 → Float64
  | nan, _ => nan
  | _, nan => nan
  | inf a, inf b => if a = b then inf a else nan
  | inf a, finite _ _ _ => inf a
  | finite _ _ _, inf b => inf b
  | finite s1 m1 e1, finite s2 m2 e2 =>
    let e := min e1 e2
    let a := m1 * 2 ^ (e1 - e)
    let b := m2 * 2 ^ (e2 - e)
    if s1 = s2 then roundUnits s1 ((a + b) * 2 ^ e) 1
    else if a = b then finite false 0 0
    else if b < a then roundUnits s1 ((a - b) * 2 ^ e) 1
    else roundUnits s2 ((b - a) * 2 ^ e) 1

instance : Add Float64 := ⟨add⟩

/-- Whether `f` is neither a NaN nor an infinity. -/
def isFinite : Float64 → Bool
  | finite _ _ _ => true
  | _ => false

end Float64

deriving instance DecidableEq for Except

/-! ## strconv -/

namespace Strconv

/-- Go's `strconv.ErrSyntax` and `strconv.ErrRange`. -/
inductive ErrKind where
  | ErrSyntax : ErrKind
  | ErrRange : ErrKind
  deriving DecidableEq, Repr

/-- Go's `*strconv.NumError`: the failing function, its input, and the reason. -/
structure NumError where
  Func : String
  Num : String
  Err : ErrKind
  deriving DecidableEq, Repr

/-- The messages of `ErrSyntax` and `ErrRange`. -/
def ErrKind.Error : ErrKind → String
  | ErrSyntax => "invalid syntax"
  | ErrRange => "value out of range"

/-- The message `(*NumError).Error()`; `quote` stands for `strconv.Quote`. -/
def NumError.Error (quote : String → String) (e : NumError) : String :=
  "strconv." ++ e.Func ++ ": " ++ "parsing " ++ quote e.Num ++ ": " ++ e.Err.Error

/-- Code of `lower(c)`, which is `c | ('x' - 'X')`. -/
def lower (c : Char) : Nat := c.toNat ||| 0x20

/-- Whether `c` is a decimal digit `'0'..'9'`. -/
def isDec (c : Char) : Bool := decide ('0'.toNat ≤ c.toNat) && decide (c.toNat ≤ '9'.toNat)

/-- Whether `lower(c)` lies in `'a'..'f'`. -/
def isHexLetter (c : Char) : Bool := decide ('a'.toNat ≤ lower c) && decide (lower c ≤ 'f'.toNat)

/-- Length of the common prefix of `s` and the lower-case word `w`, ignoring
the case of `s` (`commonPrefixLenIgnoreCase`). -/
def commonPrefixLenIgnoreCase : List Char → List Char → Nat
  | c :: cs, p :: ps =>
    let c := if 'A'.toNat ≤ c.toNat ∧ c.toNat ≤ 'Z'.toNat then c.toNat + ('a'.toNat - 'A'.toNat) else c.toNat
    if c = p.toNat then commonPrefixLenIgnoreCase cs ps + 1 else 0
  | _, _ => 0

/-- The words `special` of strconv accepts: `nan`, and `inf` or `infinity`
with an optional sign, in any letter case.  Returns the value and the number
of characters consumed. -/
def special (s : List Char) : Option (Float64 × Nat) :=
  let inf (neg : Bool) (nsign : Nat) (s : List Char) : Option (Float64 × Nat) :=
    let n := commonPrefixLenIgnoreCase s "infinity".toList
    let n := if 3 < n ∧ n < 8 then 3 else n
    if n = 3 ∨ n = 8 then some (Float64.inf neg, nsign + n) else none
  match s with
  | [] => none
  | c :: cs =>
    if c = '+' then inf false 1 cs
    else if c = '-' then inf true 1 cs
    else if c = 'i' ∨ c = 'I' then inf false 0 (c :: cs)
    else if c = 'n' ∨ c = 'N' then
      if commonPrefixLenIgnoreCase (c :: cs) "nan".toList = 3 then some (Float64.nan, 3) else none
    else none

/-- The loop variables of `readFloat` while it scans the mantissa.  The
mantissa is kept in full: strconv keeps 19 decimal (16 hexadecimal) digits
and a `trunc` flag and goes back to the digits of the string when they do not
decide the rounding, so the value it rounds is the one of all the digits. -/
structure MantState where
  mantissa : Nat := 0
  sawdot : Bool := false
  sawdigits : Bool := false
  nd : Nat := 0
  dp : Int := 0
  underscores : Bool := false
  deriving Repr

/-- The mantissa loop of `readFloat`; returns the state and the unread rest. -/
def readMantissa (hex : Bool) : List Char → MantState → MantState × List Char
  | [], st => (st, [])
  | c :: cs, st =>
    if c = '_' then readMantissa hex cs { st with underscores := true }
    else if c = '.' then
      if st.sawdot then (st, c :: cs)
      else readMantissa hex cs { st with sawdot := true, dp := st.nd }
    else if isDec c then
      if c = '0' ∧ st.nd = 0 then
        readMantissa hex cs { st with sawdigits := true, dp := st.dp - 1 }
      else
        readMantissa hex cs { st with
          sawdigits := true, nd := st.nd + 1,
          mantissa := st.mantissa * (if hex then 16 else 10) + (c.toNat - '0'.toNat) }
    else if hex ∧ isHexLetter c then
      readMantissa hex cs { st with
        sawdigits := true, nd := st.nd + 1,
        mantissa := st.mantissa * 16 + (lower c - 'a'.toNat + 10) }
    else (st, c :: cs)

/-- The exponent digit loop of `readFloat`: the exponent read so far (it
stops growing at 10000), whether an underscore was seen, the unread rest. -/
def readExpDigits : List Char → Nat → Bool → Nat × Bool × List Char
  | [], e, us => (e, us, [])
  | c :: cs, e, us =>
    if c = '_' then readExpDigits cs e true
    else if isDec c then readExpDigits cs (if e < 10000 then e * 10 + (c.toNat - '0'.toNat) else e) us
    else (e, us, c :: cs)

/-- The strconv check that underscores only separate digits (`underscoreOK`). -/
def underscoreOK (s : List Char) : Bool :=
  let s := match s with
    | c :: cs => if c = '-' ∨ c = '+' then cs else c :: cs
    | [] => []
  -- optional base prefix; `saw` is one of '^', '0', '_', '!'
  let (s, saw, hex) := match s with
    | c0 :: c1 :: cs =>
      if c0 = '0' ∧ (lower c1 = 'b'.toNat ∨ lower c1 = 'o'.toNat ∨ lower c1 = 'x'.toNat) then
        (cs, '0', decide (lower c1 = 'x'.toNat))
      else (c0 :: c1 :: cs, '^', false)
    | s => (s, '^', false)
  let rec loop (hex : Bool) : List Char → Char → Bool
    | [], saw => saw != '_'
    | c :: cs, saw =>
      if isDec c ∨ (hex ∧ isHexLetter c) then loop hex cs '0'
      else if c = '_' then
        if saw != '0' then false else loop hex cs '_'
      else if saw = '_' then false
      else loop hex cs '!'
  loop hex s saw

/-- The result of `readFloat`: the number is `mantissa * 10^exp`, or
`mantissa * 2^exp` when `hex`; `rest` is what follows the number. -/
structure ReadFloat where
  mantissa : Nat
  exp : Int
  neg : Bool
  hex : Bool
  rest : List Char
  deriving Repr

/-- The strconv scanner `readFloat`: an optional sign, an optional `0x`, digits
with at most one point, and an exponent (`e`, or a mandatory `p` after `0x`). -/
def readFloat (s : List Char) : Option ReadFloat :=
  match s with
  | [] => none
  | c :: cs =>
    let (neg, s1) := if c = '+' then (false, cs) else if c = '-' then (true, cs) else (false, c :: cs)
    let (hex, s2) := match s1 with
      | c0 :: c1 :: c2 :: r => if c0 = '0' ∧ lower c1 = 'x'.toNat then (true, c2 :: r) else (false, s1)
      | _ => (false, s1)
    let (st, s3) := readMantissa hex s2 {}
    if !st.sawdigits then none
    else
      let dp : Int := if st.sawdot then st.dp else st.nd
      let dp := if hex then dp * 4 else dp
      let ndMant : Int := if hex then st.nd * 4 else st.nd
      let finish (dp : Int) (underscores : Bool) (rest : List Char) : Option ReadFloat :=
        let exp := if st.mantissa ≠ 0 then dp - ndMant else 0
        if underscores ∧ !underscoreOK (s.take (s.length - rest.length)) then none
        else some ⟨st.mantissa, exp, neg, hex, rest⟩
      match s3 with
      | x :: xs =>
        if lower x = (if hex then 'p' else 'e').toNat then
          match xs with
          | [] => none
          | y :: ys =>
            let (esign, s4) : Int × List Char :=
              if y = '+' then (1, ys) else if y = '-' then (-1, ys) else (1, y :: ys)
            match s4 with
            | [] => none
            | z :: _ =>
              if !isDec z then none
              else
                let (e, us, s5) := readExpDigits s4 0 st.underscores
                finish (dp + e * esign) us s5
        else if hex then none
        else finish dp st.underscores s3
      | [] => if hex then none else finish dp st.underscores s3

/-- Go's `strconv.ParseFloat(s, 64)`: the float64 nearest to the number `s`
spells, `ErrSyntax` when `s` is not a number, `ErrRange` when the nearest
value is infinite. -/
def ParseFloat (s : String) : Except NumError Float64 :=
  let syntaxError : Except NumError Float64 := .error ⟨"ParseFloat", s, .ErrSyntax⟩
  match special s.toList with
  | some (f, n) => if n ≠ s.length then syntaxError else .ok f
  | none =>
    match readFloat s.toList with
    | none => syntaxError
    | some r =>
      if r.rest ≠ [] then syntaxError
      else
        let base := if r.hex then 2 else 10
        let f := if 0 ≤ r.exp then Float64.round r.neg (r.mantissa * base ^ r.exp.toNat) 1
                 else Float64.round r.neg r.mantissa (base ^ (-r.exp).toNat)
        match f with
        | .inf _ => .error ⟨"ParseFloat", s, .ErrRange⟩
        | f => .ok f

/-- The last `prec` decimal digits of `n`, most significant first. -/
def fracDigits : Nat → Nat → List Char
  | 0, _ => []
  | prec + 1, n => fracDigits prec (n / 10) ++ [Nat.digitChar (n % 10)]

/-- Go's `strconv.FormatFloat(f, 'f', prec, 64)` for `prec ≥ 0`: the sign, the
integer digits, and after a point `prec` fraction digits of the exact value of
`f` rounded half to even; `NaN`, `+Inf` and `-Inf` for the special values. -/
def FormatFloat (f : Float64) (prec : Nat) : String :=
  match f with
  | .nan => "NaN"
  | .inf false => "+Inf"
  | .inf true => "-Inf"
  | .finite neg m e =>
    let n := Float64.divRoundEven (m * 2 ^ e * 10 ^ prec) (2 ^ 1074)
    String.mk ((if neg then ['-'] else []) ++ Nat.toDigits 10 (n / 10 ^ prec)
      ++ (if prec = 0 then [] else '.' :: fracDigits prec (n % 10 ^ prec)))

/-- Whether `s` is a decimal numeral with exactly two fraction digits: an
optional minus sign, one or more digits, a point, and two digits. -/
def isFixed2 (s : String) : Bool :=
  let body := if s.toList.head? = some '-' then s.toList.tail else s.toList
  match body.dropWhile Char.isDigit with
  | ['.', d1, d2] => !(body.takeWhile Char.isDigit).isEmpty && d1.isDigit && d2.isDigit
  | _ => false

end Strconv

open Strconv

/-! ## fmt, strings -/

/-- Go's `fmt.Sprintf` for formats whose verbs are `%s` or `%v` and whose
operands are strings, one per verb: each verb is replaced by its operand,
unchanged. -/
def Sprintf (format : String) (args : List String) : String :=
  let rec go : List Char → List String → List Char
    | '%' :: 's' :: cs, a :: as => a.toList ++ go cs as
    | '%' :: 'v' :: cs, a :: as => a.toList ++ go cs as
    | c :: cs, as => c :: go cs as
    | [], _ => []
  String.mk (go format.toList args)

/-- Go's `strings.ReplaceAll(s, old, new)` on the bytes of its operands, for a
non-empty `old`: the non-overlapping occurrences of `old`, found from the left,
are replaced by `new`.  `skip` counts the bytes of an occurrence still to be
passed over. -/
def ReplaceAll (s old new : List UInt8) : List UInt8 :=
  let rec go : List UInt8 → Nat → List UInt8
    | [], _ => []
    | _ :: cs, skip + 1 => go cs skip
    | c :: cs, 0 =>
      if old.isPrefixOf (c :: cs) then new ++ go cs (old.length - 1)
      else c :: go cs 0
  go s 0

/-! ## The environment of the handlers -/

/-- What the program reads of an `*http.Response`: `StatusCode`, `Status`, and
the outcome of `ioutil.ReadAll(resp.Body)` (the bytes, or the message of the
read error). -/
structure Response where
  StatusCode : Int
  Status : String
  Body : Except String (List UInt8)

/-! ## controllers/transcript.go -/

/-- Line is a struct for each line of a transcript. -/
structure Line where
  Text : String
  Start : String
  Dur : String
  End : String
  deriving DecidableEq, Repr

/-- Transcript is a struct that contains an array of Line. -/
structure Transcript where
  Lines : List Line := []
  deriving DecidableEq, Repr

/-- One entry of `TranscriptList.Track`. -/
structure Track where
  LangCode : String
  deriving DecidableEq, Repr

/-- TranscriptList is a struct that contains the available lang codes for the
video transcripts. -/
structure TranscriptList where
  Track : List Track := []
  deriving DecidableEq, Repr

/-- The library calls whose results the program does not compute itself.
Errors are carried by their message.
* `httpGet link` is `http.Get(link)` followed by reading the body;
* `unmarshalTranscript data` is `xml.Unmarshal(data, &sub)` for an empty
  `Transcript` `sub`, `unmarshalList data` the same for a `TranscriptList`;
* `quote` is `strconv.Quote`, used in the message of a `NumError`. -/
structure World where
  httpGet : String → Except String Response
  unmarshalTranscript : List UInt8 → Except String Transcript
  unmarshalList : List UInt8 → Except String TranscriptList
  quote : String → String

/-- The query string of a request: the first value of a key, if the key is present. -/
abbrev Query := String → Option String

/-- The gin lookup `c.DefaultQuery(key, defaultValue)`. -/
def DefaultQuery (c : Query) (key defaultValue : String) : String :=
  match c key with
  | some value => value
  | none => defaultValue

/-- The object handed to `c.JSON`: `gin.H{...}` with string values, a
`Transcript`, or a `TranscriptList`. -/
inductive JSONObj where
  | H (fields : List (String × String)) : JSONObj
  | transcript (t : Transcript) : JSONObj
  | list (l : TranscriptList) : JSONObj
  deriving DecidableEq, Repr

/-- The effect of `c.JSON(code, obj)`: the response status and its body. -/
structure JSON where
  code : Nat
  obj : JSONObj
  deriving DecidableEq, Repr

/-- Go's `http.StatusInternalServerError`. -/
def StatusInternalServerError : Nat := 500

/-- Go's `http.StatusOK`. -/
def StatusOK : Nat := 200

/-- The function `getRawData` (lines 82-99). -/
def getRawData (w : World) (link : String) : Except String (List UInt8) :=
  match w.httpGet link with
  | .error err => .error err
  | .ok resp =>
    if resp.StatusCode ≠ 200 then
      .error (Sprintf "Response status: %s" [resp.Status])
    else
      match resp.Body with
      | .error err => .error err
      | .ok data => .ok (ReplaceAll data [0x0a] [0x20]) -- "\n", " "

/-- The `link` that `getTranscript` builds (lines 102-105). -/
def getTranscript.link (lang id tlang : String) : String :=
  let link := Sprintf "https://video.google.com/timedtext?lang=%s&v=%s" [lang, id]
  if tlang ≠ "" then
    Sprintf "https://video.google.com/timedtext?lang=%s&v=%s&tlang=%s" [lang, id, tlang]
  else link

/-- The loop `for i := range t.Lines` of `getTranscript` (lines 115-127), run
on the lines from the current index on: the lines as the loop leaves them, and
the error it returns with, if any.  `quote` is `strconv.Quote`. -/
def getTranscript.loop (quote : String → String) : List Line → List Line × Option String
  | [] => ([], none)
  | l :: rest =>
    match Strconv.ParseFloat l.Start with
    | .error err =>
      (l :: rest, some (Sprintf "Unable to parse tempStart: %v" [err.Error quote]))
    | .ok tempStart =>
      match Strconv.ParseFloat l.Dur with
      | .error err =>
        (l :: rest, some (Sprintf "Unable to parse tempStart: %v" [err.Error quote]))
      | .ok tempDur =>
        let num := tempStart + tempDur
        let l := { l with End := Strconv.FormatFloat num 2 }
        let (rest, err) := getTranscript.loop quote rest
        (l :: rest, err)

/-- The method `(t *Transcript) getTranscript` (lines 101-129): the transcript
`t` as the call leaves it, and the returned error (`none` for `nil`). -/
def getTranscript (w : World) (t : Transcript) (lang id tlang : String) :
    Transcript × Option String :=
  let link := getTranscript.link lang id tlang
  match getRawData w link with
  | .error err => (t, some err)
  | .ok data =>
    match w.unmarshalTranscript data with
    | .error err => (t, some err)
    | .ok sub =>
      let (lines, err) := getTranscript.loop w.quote sub.Lines
      ({ t with Lines := lines }, err)

/-- The handler `NewTranscript` (lines 19-32). -/
def NewTranscript (w : World) (c : Query) : JSON :=
  let lang := DefaultQuery c "lang" "de"
  let id := DefaultQuery c "id" "dL5oGKNlR6I"
  let tlang := DefaultQuery c "tlang" ""
  let (transcript, err) := getTranscript w {} lang id tlang
  match err with
  | some err => ⟨StatusInternalServerError, .H [("error", err)]⟩
  | none => ⟨StatusOK, .transcript transcript⟩

/-- The `link` that `ShowList` builds (line 39). -/
def ShowList.link (id : String) : String :=
  Sprintf "https://video.google.com/timedtext?v=%s&type=list" [id]

/-- The handler `ShowList` (lines 37-52). -/
def ShowList (w : World) (c : Query) : JSON :=
  let id := DefaultQuery c "id" "dL5oGKNlR6I"
  let link := ShowList.link id
  match getRawData w link with
  | .error err => ⟨StatusInternalServerError, .H [("error", err)]⟩
  | .ok data =>
    match w.unmarshalList data with
    | .error err => ⟨StatusInternalServerError, .H [("error", err)]⟩
    | .ok list => ⟨StatusOK, .list list⟩

/-! ## Reading a link -/

/-- Whether `pat` occurs in `s` as a run of consecutive characters. -/
def containsSub (pat : List Char) : List Char → Bool
  | [] => pat.isPrefixOf []
  | c :: cs => pat.isPrefixOf (c :: cs) || containsSub pat cs

/-- Whether a `tlang` parameter appears in the link: the link holds the text
`&tlang=`.  (The query of a transcript link starts with `lang=`, so a `tlang`
parameter can only follow an `&`.) -/
def hasTlangParam (link : String) : Bool :=
  containsSub "&tlang=".toList link.toList

/-! ## Example environments -/

/-- A response with the given status line and body. -/
def exampleResponse (code : Int) (status : String) (body : List UInt8) : Response :=
  ⟨code, status, .ok body⟩

/-- An environment in which every request is answered by `resp` and every
body decodes to `lines` (and to an empty track list). -/
def exampleWorld (resp : Response) (lines : List Line) : World where
  httpGet := fun _ => .ok resp
  unmarshalTranscript := fun _ => .ok ⟨lines⟩
  unmarshalList := fun _ => .ok ⟨[]⟩
  quote := fun s => "\"" ++ s ++ "\""

/-- A request without query parameters. -/
def emptyQuery : Query := fun _ => none

/-- The answer `200 OK` with an empty body. -/
def exampleOK : Response := exampleResponse 200 "200 OK" []

/-- Two caption lines as the XML decoder leaves them. -/
def exampleLines : List Line :=
  [⟨"Hallo", "1.5", "2.25", ""⟩, ⟨"Welt", "0", "0", ""⟩]

/-- Caption lines whose second `start` is malformed and whose third `dur` is missing. -/
def exampleBadLines : List Line :=
  [⟨"Hallo", "1", "2", ""⟩, ⟨"Welt", "abc", "1", ""⟩, ⟨"!", "3", "", ""⟩]

/-- Caption lines whose times parse and whose sum is not finite. -/
def exampleInfLines : List Line :=
  [⟨"Hallo", "1e308", "1e308", ""⟩, ⟨"Welt", "inf", "0", ""⟩, ⟨"!", "NaN", "1", ""⟩]

/-! ## The library model on known values -/

/-- Values `strconv.ParseFloat` returns, among them the extremes of the range. -/
theorem ParseFloat_values :
    ParseFloat "1" = .ok (.finite false (2 ^ 52) 1022) ∧
    ParseFloat "0.1" = .ok (.finite false 0x1999999999999a 1018) ∧
    ParseFloat "-0" = .ok (.finite true 0 0) ∧
    ParseFloat ".5" = .ok (.finite false (2 ^ 52) 1021) ∧
    ParseFloat "5." = .ok (.finite false (5 * 2 ^ 50) 1024) ∧
    ParseFloat "1e-400" = .ok (.finite false 0 0) ∧
    ParseFloat "5e-324" = .ok (.finite false 1 0) ∧
    ParseFloat "1.7976931348623157e308" = .ok (.finite false (2 ^ 53 - 1) 2045) ∧
    ParseFloat "0x1p-2" = .ok (.finite false (2 ^ 52) 1020) ∧
    ParseFloat "0x_1_2.3_4_5p+1_2" = ParseFloat "74565" ∧
    ParseFloat "1_23.50_0_0e+1_2" = ParseFloat "1.235e+14" ∧
    ParseFloat "+Inf" = .ok (.inf false) ∧
    ParseFloat "-infinity" = .ok (.inf true) ∧
    ParseFloat "nAn" = .ok .nan := by
  decide!

/-- Strings `strconv.ParseFloat` rejects. -/
theorem ParseFloat_errors :
    ParseFloat "1e309" = .error ⟨"ParseFloat", "1e309", .ErrRange⟩ ∧
    ParseFloat "1.7976931348623159e308" = .error ⟨"ParseFloat", "1.7976931348623159e308", .ErrRange⟩ ∧
    ParseFloat "" = .error ⟨"ParseFloat", "", .ErrSyntax⟩ ∧
    ParseFloat "abc" = .error ⟨"ParseFloat", "abc", .ErrSyntax⟩ ∧
    ParseFloat "1.5s" = .error ⟨"ParseFloat", "1.5s", .ErrSyntax⟩ ∧
    ParseFloat " 1" = .error ⟨"ParseFloat", " 1", .ErrSyntax⟩ ∧
    ParseFloat "1,5" = .error ⟨"ParseFloat", "1,5", .ErrSyntax⟩ ∧
    ParseFloat "." = .error ⟨"ParseFloat", ".", .ErrSyntax⟩ ∧
    ParseFloat "1e" = .error ⟨"ParseFloat", "1e", .ErrSyntax⟩ ∧
    ParseFloat "+nan" = .error ⟨"ParseFloat", "+nan", .ErrSyntax⟩ ∧
    ParseFloat "infi" = .error ⟨"ParseFloat", "infi", .ErrSyntax⟩ ∧
    ParseFloat "0x1" = .error ⟨"ParseFloat", "0x1", .ErrSyntax⟩ ∧
    ParseFloat "1__23.5e+12" = .error ⟨"ParseFloat", "1__23.5e+12", .ErrSyntax⟩ ∧
    ParseFloat "123.5e+12_" = .error ⟨"ParseFloat", "123.5e+12_", .ErrSyntax⟩ := by
  decide!

/-- Texts of `strconv.FormatFloat(f, 'f', prec, 64)`, among them ties and near-ties. -/
theorem FormatFloat_values :
    (ParseFloat "0.125").map (FormatFloat · 2) = .ok "0.12" ∧
    (ParseFloat "0.375").map (FormatFloat · 2) = .ok "0.38" ∧
    (ParseFloat "1.005").map (FormatFloat · 2) = .ok "1.00" ∧
    (ParseFloat "2.675").map (FormatFloat · 2) = .ok "2.67" ∧
    (ParseFloat "9.999").map (FormatFloat · 2) = .ok "10.00" ∧
    (ParseFloat "-0.001").map (FormatFloat · 2) = .ok "-0.00" ∧
    (ParseFloat "1e23").map (FormatFloat · 2) = .ok "99999999999999991611392.00" ∧
    (ParseFloat "0.1").map (FormatFloat · 20) = .ok "0.10000000000000000555" ∧
    (ParseFloat "2.5").map (FormatFloat · 0) = .ok "2" ∧
    (ParseFloat "3.5").map (FormatFloat · 0) = .ok "4" := by
  decide!

/-- Sums of float64 values: rounding, signed zeros, ties, and the special values. -/
theorem add_values :
    (do let x ← ParseFloat "0.1"; let y ← ParseFloat "0.2"; pure (FormatFloat (x + y) 17))
      = .ok "0.30000000000000004" ∧
    (do let x ← ParseFloat "1.005"; let y ← ParseFloat "0.005"; pure (FormatFloat (x + y) 2))
      = .ok "1.01" ∧
    (do let x ← ParseFloat "1e308"; let y ← ParseFloat "-1e308"; pure (x + y))
      = .ok (.finite false 0 0) ∧
    (do let x ← ParseFloat "-0"; let y ← ParseFloat "-0"; pure (x + y))
      = .ok (.finite true 0 0) ∧
    (do let x ← ParseFloat "inf"; let y ← ParseFloat "-inf"; pure (x + y)) = .ok .nan ∧
    (do let x ← ParseFloat "9007199254740992"; let y ← ParseFloat "1"; pure (FormatFloat (x + y) 0))
      = .ok "9007199254740992" ∧
    (do let x ← ParseFloat "9007199254740994"; let y ← ParseFloat "1"; pure (FormatFloat (x + y) 0))
      = .ok "9007199254740996" := by
  decide!

/-! ## Lemmas on the library model -/

/-- The transcript link, written with string concatenation. -/
theorem getTranscript.link_eq (lang id tlang : String) :
    getTranscript.link lang id tlang =
      if tlang = "" then "https://video.google.com/timedtext?lang=" ++ lang ++ "&v=" ++ id
      else "https://video.google.com/timedtext?lang=" ++ lang ++ "&v=" ++ id
        ++ "&tlang=" ++ tlang := by
  unfold getTranscript.link
  by_cases h : tlang = ""
  · simp only [h, ne_eq, not_true_eq_false, if_false, if_true]
    apply String.ext
    simp [Sprintf, Sprintf.go]
  · simp only [h, ne_eq, not_false_eq_true, if_true, if_false]
    apply String.ext
    simp [Sprintf, Sprintf.go]

/-- Replacing the one-byte pattern `"\n"` by `" "` maps every byte on its own. -/
theorem ReplaceAll_newline (s : List UInt8) :
    ReplaceAll s [0x0a] [0x20] = s.map (fun c => if c = 0x0a then 0x20 else c) := by
  unfold ReplaceAll
  induction s with
  | nil => simp [ReplaceAll.go]
  | cons c cs ih =>
    by_cases h : c = 0x0a
    · simp [ReplaceAll.go, h, ih, List.isPrefixOf]
    · simp only [ReplaceAll.go, List.isPrefixOf, List.map_cons, h, if_false, ih]
      have h2 : ((10 : UInt8) == c) = false := by
        simp only [beq_eq_false_iff_ne, ne_eq]
        exact fun e => h e.symm
      simp [h2]

/-- The message of `errors.Errorf("Response status: %s", status)`. -/
theorem Sprintf_status (status : String) :
    Sprintf "Response status: %s" [status] = "Response status: " ++ status := by
  apply String.ext
  simp [Sprintf, Sprintf.go]

/-! ## Lemmas on FormatFloat -/

/-- A decimal digit prints as a digit character. -/
theorem isDigit_digitChar (k : Nat) : (Nat.digitChar (k % 10)).isDigit = true := by
  have h : k % 10 < 10 := Nat.mod_lt k (by decide)
  generalize k % 10 = d at h
  interval_cases d <;> decide

/-- The digit loop of `Nat.toDigits` only adds digit characters. -/
theorem toDigitsCore_isDigit (fuel : Nat) : ∀ (n : Nat) (ds : List Char),
    (∀ c ∈ ds, c.isDigit = true) → ∀ c ∈ Nat.toDigitsCore 10 fuel n ds, c.isDigit = true := by
  induction fuel with
  | zero => intro n ds h; simpa [Nat.toDigitsCore] using h
  | succ fuel ih =>
    intro n ds h
    have hd : ∀ c ∈ Nat.digitChar (n % 10) :: ds, c.isDigit = true := by
      intro c hc
      rcases List.mem_cons.1 hc with e | e
      · rw [e]; exact isDigit_digitChar n
      · exact h c e
    simp only [Nat.toDigitsCore]
    split
    · exact hd
    · exact ih _ _ hd

/-- The digit loop of `Nat.toDigits` keeps a non-empty accumulator non-empty. -/
theorem toDigitsCore_ne_nil (fuel : Nat) : ∀ (n : Nat) (ds : List Char),
    ds ≠ [] → Nat.toDigitsCore 10 fuel n ds ≠ [] := by
  induction fuel with
  | zero => intro n ds h; simpa [Nat.toDigitsCore] using h
  | succ fuel ih =>
    intro n ds _
    simp only [Nat.toDigitsCore]
    split
    · simp
    · exact ih _ _ (by simp)

/-- The decimal digits of a number are digit characters. -/
theorem toDigits_isDigit (n : Nat) : ∀ c ∈ Nat.toDigits 10 n, c.isDigit = true :=
  toDigitsCore_isDigit _ _ _ (by simp)

/-- A number has at least one decimal digit. -/
theorem toDigits_ne_nil (n : Nat) : Nat.toDigits 10 n ≠ [] := by
  unfold Nat.toDigits
  simp only [Nat.toDigitsCore]
  split
  · simp
  · exact toDigitsCore_ne_nil _ _ _ (by simp)

/-- Digits followed by a point split at the point. -/
theorem takeWhile_digits (ds rest : List Char) (h : ∀ c ∈ ds, c.isDigit = true) :
    (ds ++ '.' :: rest).takeWhile Char.isDigit = ds ∧
    (ds ++ '.' :: rest).dropWhile Char.isDigit = '.' :: rest := by
  induction ds with
  | nil =>
    have : Char.isDigit '.' = false := by decide
    simp [List.takeWhile, List.dropWhile, this]
  | cons c cs ih =>
    have hc : c.isDigit = true := h c (by simp)
    have ih := ih (fun x hx => h x (by simp [hx]))
    simp [List.takeWhile, List.dropWhile, hc, ih]

/-- The text of a finite value has the shape `-?d+.dd`. -/
theorem isFixed2_FormatFloat (neg : Bool) (m e : Nat) :
    isFixed2 (FormatFloat (.finite neg m e) 2) = true := by
  simp only [FormatFloat, OfNat.ofNat_ne_zero, if_false, fracDigits, List.nil_append]
  generalize Float64.divRoundEven (m * 2 ^ e * 10 ^ 2) (2 ^ 1074) = n
  have hds := toDigits_isDigit (n / 10 ^ 2)
  have hne := toDigits_ne_nil (n / 10 ^ 2)
  generalize Nat.toDigits 10 (n / 10 ^ 2) = ds at hds hne
  have hd1 := isDigit_digitChar (n % 10 ^ 2 / 10)
  have hd2 := isDigit_digitChar (n % 10 ^ 2)
  generalize Nat.digitChar (n % 10 ^ 2 / 10 % 10) = d1 at hd1
  generalize Nat.digitChar (n % 10 ^ 2 % 10) = d2 at hd2
  obtain ⟨c, cs, rfl⟩ := List.exists_cons_of_ne_nil hne
  have hc : c.isDigit = true := hds c (by simp)
  have hcm : c ≠ '-' := by
    intro e
    rw [e] at hc
    exact absurd hc (by decide)
  have htd := takeWhile_digits (c :: cs) [d1, d2] hds
  cases neg with
  | true =>
    simp only [isFixed2, if_true, List.singleton_append, List.cons_append, List.head?_cons,
      List.tail_cons]
    simp only [List.cons_append] at htd
    simp [htd.1, htd.2, hd1, hd2]
  | false =>
    simp only [isFixed2, List.nil_append, List.cons_append, List.head?_cons,
      Option.some.injEq, Bool.false_eq_true, if_false, String.toList]
    rw [if_neg hcm]
    simp only [List.cons_append] at htd
    simp [htd.1, htd.2, hd1, hd2]

/-! ## Lemmas on the loop of getTranscript -/

/-- The message of `errors.Errorf("Unable to parse tempStart: %v", err)`. -/
theorem Sprintf_parse (msg : String) :
    Sprintf "Unable to parse tempStart: %v" [msg] = "Unable to parse tempStart: " ++ msg := by
  apply String.ext
  simp [Sprintf, Sprintf.go]

/-- The loop keeps the number of lines, whether it fails or not. -/
theorem getTranscript.loop_length (quote : String → String) (L : List Line) :
    (getTranscript.loop quote L).1.length = L.length := by
  induction L with
  | nil => simp [getTranscript.loop]
  | cons l rest ih =>
    simp only [getTranscript.loop]
    cases ParseFloat l.Start with
    | error e => simp
    | ok s =>
      cases ParseFloat l.Dur with
      | error e => simp
      | ok d => simp [ih]

/-- The loop changes no field other than `End`, whether it fails or not. -/
theorem getTranscript.loop_fields (quote : String → String) (L : List Line) :
    (getTranscript.loop quote L).1.map (fun l => (l.Text, l.Start, l.Dur))
      = L.map (fun l => (l.Text, l.Start, l.Dur)) := by
  induction L with
  | nil => simp [getTranscript.loop]
  | cons l rest ih =>
    simp only [getTranscript.loop]
    cases ParseFloat l.Start with
    | error e => simp
    | ok s =>
      cases ParseFloat l.Dur with
      | error e => simp
      | ok d => simp [ih]

/-- The loop returns no error exactly when `Start` and `Dur` of every line parse. -/
theorem getTranscript.loop_none_iff (quote : String → String) (L : List Line) :
    (getTranscript.loop quote L).2 = none ↔
      ∀ l ∈ L, (∃ s, ParseFloat l.Start = .ok s) ∧ (∃ d, ParseFloat l.Dur = .ok d) := by
  induction L with
  | nil => simp [getTranscript.loop]
  | cons l rest ih =>
    simp only [getTranscript.loop]
    cases h1 : ParseFloat l.Start with
    | error e => simp [h1]
    | ok s =>
      cases h2 : ParseFloat l.Dur with
      | error e => simp [h1, h2]
      | ok d => simp [h1, h2, ih]

/-- When the loop returns no error, line `i` of its result is line `i` of its
input with `End` set to the formatted sum. -/
theorem getTranscript.loop_ok (quote : String → String) (L : List Line)
    (h : (getTranscript.loop quote L).2 = none) (i : Nat) (l : Line) (hl : L[i]? = some l) :
    ∃ s d, ParseFloat l.Start = .ok s ∧ ParseFloat l.Dur = .ok d ∧
      (getTranscript.loop quote L).1[i]? = some { l with End := FormatFloat (s + d) 2 } := by
  induction L generalizing i with
  | nil => simp at hl
  | cons l0 rest ih =>
    simp only [getTranscript.loop] at h ⊢
    cases h1 : ParseFloat l0.Start with
    | error e => simp [h1] at h
    | ok s =>
      cases h2 : ParseFloat l0.Dur with
      | error e => simp [h1, h2] at h
      | ok d =>
        simp only [h1, h2] at h ⊢
        cases i with
        | zero =>
          simp only [List.getElem?_cons_zero, Option.some.injEq] at hl
          subst hl
          exact ⟨s, d, h1, h2, by simp⟩
        | succ j =>
          simp only [List.getElem?_cons_succ] at hl ⊢
          exact ih h j hl

/-- The loop stops at the first line that does not parse: the lines before it
have their `End` computed, that line and the lines after it are left as
they were, and the error names the parse failure. -/
theorem getTranscript.loop_stop (quote : String → String) (pre post : List Line) (bad : Line)
    (hpre : (getTranscript.loop quote pre).2 = none)
    (hbad : ¬ ((∃ s, ParseFloat bad.Start = .ok s) ∧ (∃ d, ParseFloat bad.Dur = .ok d))) :
    ∃ err, ((ParseFloat bad.Start = .error err) ∨
        ((∃ s, ParseFloat bad.Start = .ok s) ∧ ParseFloat bad.Dur = .error err)) ∧
      getTranscript.loop quote (pre ++ bad :: post)
        = ((getTranscript.loop quote pre).1 ++ bad :: post,
            some ("Unable to parse tempStart: " ++ err.Error quote)) := by
  induction pre with
  | nil =>
    simp only [getTranscript.loop, List.nil_append]
    cases h1 : ParseFloat bad.Start with
    | error e => exact ⟨e, Or.inl rfl, by simp [Sprintf_parse]⟩
    | ok s =>
      cases h2 : ParseFloat bad.Dur with
      | error e => exact ⟨e, Or.inr ⟨⟨s, rfl⟩, rfl⟩, by simp [Sprintf_parse]⟩
      | ok d => exact absurd ⟨⟨s, h1⟩, ⟨d, h2⟩⟩ hbad
  | cons l0 rest ih =>
    simp only [getTranscript.loop] at hpre
    cases h1 : ParseFloat l0.Start with
    | error e => simp [h1] at hpre
    | ok s =>
      cases h2 : ParseFloat l0.Dur with
      | error e => simp [h1, h2] at hpre
      | ok d =>
        simp only [h1, h2] at hpre
        obtain ⟨err, herr, hloop⟩ := ih hpre
        refine ⟨err, herr, ?_⟩
        simp [getTranscript.loop, h1, h2, hloop]

/-- A list with a line that does not parse splits at the first such line. -/
theorem exists_first_bad (P : Line → Prop) (L : List Line) (h : ∃ l ∈ L, ¬ P l) :
    ∃ pre bad post, L = pre ++ bad :: post ∧ (∀ l ∈ pre, P l) ∧ ¬ P bad := by
  induction L with
  | nil => simp at h
  | cons l0 rest ih =>
    by_cases h0 : P l0
    · obtain ⟨l, hl, hP⟩ := h
      have hrest : ∃ l ∈ rest, ¬ P l := by
        rcases List.mem_cons.1 hl with e | e
        · exact absurd (e ▸ h0) hP
        · exact ⟨l, e, hP⟩
      obtain ⟨pre, bad, post, e, hpre, hbad⟩ := ih hrest
      refine ⟨l0 :: pre, bad, post, by simp [e], ?_, hbad⟩
      intro l hl
      rcases List.mem_cons.1 hl with e | e
      · exact e ▸ h0
      · exact hpre l e
    · exact ⟨[], l0, rest, rfl, by simp, h0⟩

/-- When the loop returns no error, every line of its result has an `End`
that is the formatted sum of its `Start` and `Dur`. -/
theorem getTranscript.loop_mem (quote : String → String) (L : List Line)
    (h : (getTranscript.loop quote L).2 = none) :
    ∀ l ∈ (getTranscript.loop quote L).1, ∃ s d, ParseFloat l.Start = .ok s ∧
      ParseFloat l.Dur = .ok d ∧ l.End = FormatFloat (s + d) 2 := by
  induction L with
  | nil => simp [getTranscript.loop]
  | cons l0 rest ih =>
    simp only [getTranscript.loop] at h ⊢
    cases h1 : ParseFloat l0.Start with
    | error e => simp [h1] at h
    | ok s =>
      cases h2 : ParseFloat l0.Dur with
      | error e => simp [h1, h2] at h
      | ok d =>
        simp only [h1, h2] at h ⊢
        intro l hl
        rcases List.mem_cons.1 hl with e | e
        · subst e
          exact ⟨s, d, h1, h2, rfl⟩
        · exact ih h l e

/-! ## Lemmas on occurrences in a link -/

/-- A text occurs in whatever is built around it. -/
theorem containsSub_mid (pat a b : List Char) : containsSub pat (a ++ pat ++ b) = true := by
  induction a with
  | nil =>
    rw [List.nil_append]
    cases hp : pat ++ b with
    | nil =>
      obtain ⟨hnil, -⟩ := List.append_eq_nil.1 hp
      subst hnil
      rfl
    | cons c cs =>
      have hpre : pat.isPrefixOf (c :: cs) = true := by
        rw [← hp]
        exact List.isPrefixOf_iff_prefix.2 (List.prefix_append pat b)
      simp [containsSub, hpre]
  | cons c cs ih =>
    have ih2 : containsSub pat (cs ++ (pat ++ b)) = true := by
      rw [← List.append_assoc]
      exact ih
    simp [containsSub, ih2]

/-- A text that starts with `&` does not begin inside a run without `&`. -/
theorem containsSub_skip (p l r : List Char) (h : '&' ∉ l) :
    containsSub ('&' :: p) (l ++ r) = containsSub ('&' :: p) r := by
  induction l with
  | nil => rfl
  | cons c cs ih =>
    have hc : ('&' == c) = false := by
      simp only [beq_eq_false_iff_ne, ne_eq]
      intro e
      exact h (by rw [← e]; exact List.mem_cons_self _ _)
    have hcs : '&' ∉ cs := fun hm => h (by simp [hm])
    simp [containsSub, List.isPrefixOf, hc, ih hcs]

/-- The link without `tlang` holds no `&tlang=` when `lang` and `id` hold no `&`. -/
theorem hasTlangParam_base (lang id : String) (hl : '&' ∉ lang.toList) (hi : '&' ∉ id.toList) :
    hasTlangParam ("https://video.google.com/timedtext?lang=" ++ lang ++ "&v=" ++ id)
      = false := by
  have e : ("https://video.google.com/timedtext?lang=" ++ lang ++ "&v=" ++ id).toList
      = "https://video.google.com/timedtext?lang=".toList
        ++ (lang.toList ++ ('&' :: (['v', '='] ++ (id.toList ++ [])))) := by
    simp [String.toList]
  rw [hasTlangParam, e]
  have hp : '&' ∉ "https://video.google.com/timedtext?lang=".toList := by decide
  have hv : '&' ∉ ['v', '='] := by decide
  have e7 : "&tlang=".toList = '&' :: ['t', 'l', 'a', 'n', 'g', '='] := by decide
  rw [e7, containsSub_skip _ _ _ hp, containsSub_skip _ _ _ hl]
  rw [containsSub, containsSub_skip _ _ _ hv, containsSub_skip _ _ _ hi]
  simp [List.isPrefixOf, containsSub]

/-- The link with a non-empty `tlang` holds `&tlang=`. -/
theorem hasTlangParam_suffix (base tlang : String) :
    hasTlangParam (base ++ "&tlang=" ++ tlang) = true := by
  have e : (base ++ "&tlang=" ++ tlang).toList
      = base.toList ++ "&tlang=".toList ++ tlang.toList := by
    simp [String.toList]
  rw [hasTlangParam, e]
  exact containsSub_mid _ _ _

/-! ## C5, C10: the transcript link -/

/-- C5, as stated, fails: with `lang = "a"`, `id = "b&tlang=c"` and an empty
`tlang` the link is `...?lang=a&v=b&tlang=c`, in which a `tlang` parameter
appears; it is the link of `("a", "b", "c")`, so nothing read off the link
holds exactly when `tlang` is non-empty. -/
theorem tlang_param_with_empty_tlang :
    getTranscript.link "a" "b&tlang=c" ""
      = "https://video.google.com/timedtext?lang=a&v=b&tlang=c" ∧
    hasTlangParam (getTranscript.link "a" "b&tlang=c" "") = true ∧
    ¬ (hasTlangParam (getTranscript.link "a" "b&tlang=c" "") = true ↔ ("" : String) ≠ "") ∧
    ¬ ∃ P : String → Prop, ∀ lang id tlang : String,
        P (getTranscript.link lang id tlang) ↔ tlang ≠ "" := by
  refine ⟨by decide, by decide, by decide, ?_⟩
  rintro ⟨P, h⟩
  have h1 : P (getTranscript.link "a" "b" "c") := (h "a" "b" "c").2 (by decide)
  have e : getTranscript.link "a" "b" "c" = getTranscript.link "a" "b&tlang=c" "" := by decide
  rw [e] at h1
  exact (h "a" "b&tlang=c" "").1 h1 rfl

/-- C5, amended: the link `getTranscript` fetches is the base URL with `lang`
and `id` when `tlang` is empty and the same string followed by `&tlang=` and
`tlang` otherwise.  A `tlang` parameter appears in it whenever `tlang` is
non-empty, and exactly when `tlang` is non-empty if neither `lang` nor `id`
holds an `&`.  The link is the one `getTranscript` fetches: a transport error
there is the error it returns, and the responses at other links do not change
its outcome. -/
theorem getTranscript_link (lang id tlang : String) :
    (tlang = "" → getTranscript.link lang id tlang =
        "https://video.google.com/timedtext?lang=" ++ lang ++ "&v=" ++ id) ∧
    (tlang ≠ "" → getTranscript.link lang id tlang =
        "https://video.google.com/timedtext?lang=" ++ lang ++ "&v=" ++ id
          ++ "&tlang=" ++ tlang) ∧
    (tlang ≠ "" → hasTlangParam (getTranscript.link lang id tlang) = true) ∧
    ('&' ∉ lang.toList → '&' ∉ id.toList →
      (hasTlangParam (getTranscript.link lang id tlang) = true ↔ tlang ≠ "")) ∧
    (∀ (w : World) (t : Transcript) (msg : String),
        w.httpGet (getTranscript.link lang id tlang) = .error msg →
        getTranscript w t lang id tlang = (t, some msg)) ∧
    (∀ (w : World) (get : String → Except String Response) (t : Transcript),
        get (getTranscript.link lang id tlang) = w.httpGet (getTranscript.link lang id tlang) →
        getTranscript { w with httpGet := get } t lang id tlang
          = getTranscript w t lang id tlang) := by
  have hsuf : tlang ≠ "" → hasTlangParam (getTranscript.link lang id tlang) = true := by
    intro h
    rw [getTranscript.link_eq, if_neg h]
    exact hasTlangParam_suffix _ _
  refine ⟨?_, ?_, hsuf, ?_, ?_, ?_⟩
  · intro h
    rw [getTranscript.link_eq, if_pos h]
  · intro h
    rw [getTranscript.link_eq, if_neg h]
  · intro hl hi
    constructor
    · intro h e
      rw [getTranscript.link_eq, if_pos e, hasTlangParam_base lang id hl hi] at h
      cases h
    · exact hsuf
  · intro w t msg h
    simp only [getTranscript, getRawData, h]
  · intro w get t h
    simp only [getTranscript, getRawData, h]

/-- C5 amended, at `lang = "en"`, `id = "abc"`, with `tlang = "fr"` and with an
empty `tlang`, for a network that is down, and for one that differs away from
the link. -/
theorem getTranscript_link_witness :
    getTranscript.link "en" "abc" "fr"
      = "https://video.google.com/timedtext?lang=en&v=abc&tlang=fr" ∧
    getTranscript.link "en" "abc" "" = "https://video.google.com/timedtext?lang=en&v=abc" ∧
    hasTlangParam (getTranscript.link "en" "abc" "fr") = true ∧
    (hasTlangParam (getTranscript.link "en" "abc" "") = true ↔ ("" : String) ≠ "") ∧
    getTranscript { exampleWorld exampleOK exampleLines with
        httpGet := fun _ => .error "no route to host" } {} "en" "abc" ""
      = ({}, some "no route to host") ∧
    getTranscript { exampleWorld exampleOK exampleLines with
        httpGet := fun link =>
          if link = "https://video.google.com/timedtext?lang=en&v=abc" then .ok exampleOK
          else .error "no route to host" } {} "en" "abc" ""
      = getTranscript (exampleWorld exampleOK exampleLines) {} "en" "abc" "" := by
  have h1 := (getTranscript_link "en" "abc" "fr").2.1 (by decide)
  have h2 := (getTranscript_link "en" "abc" "").1 rfl
  have h3 := (getTranscript_link "en" "abc" "fr").2.2.1 (by decide)
  have h4 := (getTranscript_link "en" "abc" "").2.2.2.1 (by decide) (by decide)
  have h5 := (getTranscript_link "en" "abc" "").2.2.2.2.1
    { exampleWorld exampleOK exampleLines with httpGet := fun _ => .error "no route to host" }
    {} "no route to host" rfl
  have h6 := (getTranscript_link "en" "abc" "").2.2.2.2.2 (exampleWorld exampleOK exampleLines)
    (fun link =>
      if link = "https://video.google.com/timedtext?lang=en&v=abc" then .ok exampleOK
      else .error "no route to host") {} (by rw [h2]; rfl)
  refine ⟨?_, ?_, h3, h4, h5, h6⟩
  · rw [h1]
    decide
  · rw [h2]
    decide

/-- C10: `lang`, `id` and `tlang` enter the link unescaped, so the link does not
determine them: `("a", "b", "c")` and `("a", "b&tlang=c", "")` are fetched from
the same URL. -/
theorem link_not_injective :
    getTranscript.link "a" "b" "c" = getTranscript.link "a" "b&tlang=c" "" ∧
    getTranscript.link "a" "b" "c" = "https://video.google.com/timedtext?lang=a&v=b&tlang=c" ∧
    (("a", "b", "c") : String × String × String) ≠ ("a", "b&tlang=c", "") ∧
    ¬ Function.Injective
        (fun p : String × String × String => getTranscript.link p.1 p.2.1 p.2.2) := by
  refine ⟨by decide, by decide, by decide, ?_⟩
  intro h
  have e : (("a", "b", "c") : String × String × String) = ("a", "b&tlang=c", "") :=
    h (by decide)
  exact absurd e (by decide)

/-! ## C6, C7: getRawData -/

/-- C6: on a response with status 200 and body `b`, `getRawData` returns `b`
with every newline byte replaced by one space: the result has the length of
`b`, holds no newline, agrees with `b` wherever `b` has no newline and has a
space wherever `b` has one. -/
theorem getRawData_newlines (w : World) (link : String) (resp : Response) (b : List UInt8)
    (hget : w.httpGet link = .ok resp) (hcode : resp.StatusCode = 200)
    (hbody : resp.Body = .ok b) :
    ∃ data, getRawData w link = .ok data ∧
      data = b.map (fun c => if c = 0x0a then 0x20 else c) ∧
      data.length = b.length ∧ (0x0a : UInt8) ∉ data ∧
      ∀ (i : Nat) (c : UInt8), b[i]? = some c →
        (c ≠ 0x0a → data[i]? = some c) ∧ (c = 0x0a → data[i]? = some 0x20) := by
  refine ⟨b.map (fun c => if c = 0x0a then 0x20 else c), ?_, rfl, by simp, ?_, ?_⟩
  · simp [getRawData, hget, hcode, hbody, ReplaceAll_newline]
  · intro hmem
    rcases List.mem_map.1 hmem with ⟨c, -, hc⟩
    by_cases h : c = 0x0a
    · rw [if_pos h] at hc
      exact absurd hc (by decide)
    · rw [if_neg h] at hc
      exact h hc
  · intro i c hi
    constructor
    · intro hne
      simp [List.getElem?_map, hi, hne]
    · intro heq
      simp [List.getElem?_map, hi, heq]

/-- C6, on the body `a\nb\n`. -/
theorem getRawData_newlines_witness :
    ∃ data, getRawData (exampleWorld (exampleResponse 200 "200 OK" [97, 10, 98, 10]) []) "u"
        = .ok data ∧ data = [97, 32, 98, 32] := by
  obtain ⟨data, h, hmap, -⟩ :=
    getRawData_newlines (exampleWorld (exampleResponse 200 "200 OK" [97, 10, 98, 10]) []) "u"
      (exampleResponse 200 "200 OK" [97, 10, 98, 10]) [97, 10, 98, 10] rfl rfl rfl
  exact ⟨data, h, by rw [hmap]; decide⟩

/-- C7: when the response's status code is not 200, `getRawData` returns no
data and the error `Response status: ` followed by the status text;
`getTranscript` then fails with that message and leaves its transcript as it
was, and `ShowList` answers 500 with that message, whatever the XML decoders
would do. -/
theorem getRawData_status (w : World) (link : String) (resp : Response)
    (hget : w.httpGet link = .ok resp) (hcode : resp.StatusCode ≠ 200) :
    getRawData w link = .error ("Response status: " ++ resp.Status) ∧
    (∀ (um : List UInt8 → Except String Transcript) (t : Transcript) (lang id tlang : String),
      getTranscript.link lang id tlang = link →
      getTranscript { w with unmarshalTranscript := um } t lang id tlang
        = (t, some ("Response status: " ++ resp.Status))) ∧
    (∀ (ul : List UInt8 → Except String TranscriptList) (c : Query),
      ShowList.link (DefaultQuery c "id" "dL5oGKNlR6I") = link →
      ShowList { w with unmarshalList := ul } c
        = ⟨500, .H [("error", "Response status: " ++ resp.Status)]⟩) := by
  have hraw : ∀ w2 : World, w2.httpGet = w.httpGet →
      getRawData w2 link = .error ("Response status: " ++ resp.Status) := by
    intro w2 h2
    simp [getRawData, h2, hget, hcode, Sprintf_status]
  refine ⟨hraw w rfl, ?_, ?_⟩
  · intro um t lang id tlang hl
    simp only [getTranscript, hl, hraw { w with unmarshalTranscript := um } rfl]
  · intro ul c hl
    simp only [ShowList, hl, hraw { w with unmarshalList := ul } rfl]
    rfl

/-- C7, on the responses `404 Not Found` and `204 No Content`. -/
theorem getRawData_status_witness :
    getRawData (exampleWorld (exampleResponse 404 "404 Not Found" []) []) "u"
        = .error "Response status: 404 Not Found" ∧
    getTranscript (exampleWorld (exampleResponse 204 "204 No Content" []) []) {} "de" "x" ""
        = ({}, some "Response status: 204 No Content") ∧
    ShowList (exampleWorld (exampleResponse 404 "404 Not Found" []) []) emptyQuery
        = ⟨500, .H [("error", "Response status: 404 Not Found")]⟩ := by
  refine ⟨?_, ?_, ?_⟩
  · exact (getRawData_status (exampleWorld (exampleResponse 404 "404 Not Found" []) []) "u"
      (exampleResponse 404 "404 Not Found" []) rfl (by decide)).1
  · exact (getRawData_status (exampleWorld (exampleResponse 204 "204 No Content" []) [])
      (getTranscript.link "de" "x" "") (exampleResponse 204 "204 No Content" []) rfl
      (by decide)).2.1 (fun _ => .ok ⟨[]⟩) {} "de" "x" "" rfl
  · exact (getRawData_status (exampleWorld (exampleResponse 404 "404 Not Found" []) [])
      (ShowList.link "dL5oGKNlR6I") (exampleResponse 404 "404 Not Found" []) rfl
      (by decide)).2.2 (fun _ => .ok ⟨[]⟩) emptyQuery rfl

/-! ## C8: the handlers -/

/-- C8: `NewTranscript` answers 500 with an `error` field holding the message
exactly when `getTranscript` returns an error, and 200 with the transcript
otherwise; `ShowList` answers 500 with an `error` field exactly when the fetch
or the XML decoding fails, and 200 with the list otherwise.  No other status
is produced. -/
theorem handlers_status (w : World) (c : Query) :
    (∀ msg, (getTranscript w {} (DefaultQuery c "lang" "de") (DefaultQuery c "id" "dL5oGKNlR6I")
          (DefaultQuery c "tlang" "")).2 = some msg →
        NewTranscript w c = ⟨500, .H [("error", msg)]⟩) ∧
    ((getTranscript w {} (DefaultQuery c "lang" "de") (DefaultQuery c "id" "dL5oGKNlR6I")
          (DefaultQuery c "tlang" "")).2 = none →
        NewTranscript w c = ⟨200, .transcript
          (getTranscript w {} (DefaultQuery c "lang" "de") (DefaultQuery c "id" "dL5oGKNlR6I")
            (DefaultQuery c "tlang" "")).1⟩) ∧
    (∀ msg, getRawData w (ShowList.link (DefaultQuery c "id" "dL5oGKNlR6I")) = .error msg →
        ShowList w c = ⟨500, .H [("error", msg)]⟩) ∧
    (∀ data msg, getRawData w (ShowList.link (DefaultQuery c "id" "dL5oGKNlR6I")) = .ok data →
        w.unmarshalList data = .error msg →
        ShowList w c = ⟨500, .H [("error", msg)]⟩) ∧
    (∀ data list, getRawData w (ShowList.link (DefaultQuery c "id" "dL5oGKNlR6I")) = .ok data →
        w.unmarshalList data = .ok list →
        ShowList w c = ⟨200, .list list⟩) ∧
    ((NewTranscript w c).code = 500 ∨ (NewTranscript w c).code = 200) ∧
    ((ShowList w c).code = 500 ∨ (ShowList w c).code = 200) := by
  refine ⟨?_, ?_, ?_, ?_, ?_, ?_, ?_⟩
  · intro msg h
    simp only [NewTranscript, h]
    rfl
  · intro h
    simp only [NewTranscript, h]
    rfl
  · intro msg h
    simp only [ShowList, h]
    rfl
  · intro data msg h1 h2
    simp only [ShowList, h1, h2]
    rfl
  · intro data list h1 h2
    simp only [ShowList, h1, h2]
    rfl
  · simp only [NewTranscript]
    cases (getTranscript w {} (DefaultQuery c "lang" "de") (DefaultQuery c "id" "dL5oGKNlR6I")
      (DefaultQuery c "tlang" "")).2 with
    | none => exact Or.inr rfl
    | some msg => exact Or.inl rfl
  · simp only [ShowList]
    cases getRawData w (ShowList.link (DefaultQuery c "id" "dL5oGKNlR6I")) with
    | error e => exact Or.inl rfl
    | ok data =>
      dsimp only
      cases w.unmarshalList data with
      | error e => exact Or.inl rfl
      | ok l => exact Or.inr rfl

/-- C8, on a `503` answer of the caption service, on two lines that parse, and
on an empty track list. -/
theorem handlers_status_witness :
    NewTranscript (exampleWorld (exampleResponse 503 "503 Service Unavailable" []) []) emptyQuery
      = ⟨500, .H [("error", "Response status: 503 Service Unavailable")]⟩ ∧
    NewTranscript (exampleWorld exampleOK exampleLines) emptyQuery
      = ⟨200, .transcript
          ⟨[⟨"Hallo", "1.5", "2.25", "3.75"⟩, ⟨"Welt", "0", "0", "0.00"⟩]⟩⟩ ∧
    ShowList (exampleWorld exampleOK []) emptyQuery = ⟨200, .list ⟨[]⟩⟩ := by
  refine ⟨?_, ?_, ?_⟩
  · exact (handlers_status (exampleWorld (exampleResponse 503 "503 Service Unavailable" []) [])
      emptyQuery).1 _ (by decide)
  · have h := (handlers_status (exampleWorld exampleOK exampleLines) emptyQuery).2.1
      (by decide!)
    rw [h]
    decide!
  · exact (handlers_status (exampleWorld exampleOK []) emptyQuery).2.2.2.2.1 [] ⟨[]⟩ rfl rfl

/-! ## C9, C3: the loop over the decoded lines -/

/-- C9: when `getTranscript` succeeds on the decoded lines `L`, its transcript
has as many lines as `L`, in the same order, and line `i` has the text, start
and dur of `L[i]`: only `End` is changed. -/
theorem getTranscript_frame (w : World) (t : Transcript) (lang id tlang : String)
    (data : List UInt8) (sub : Transcript)
    (hraw : getRawData w (getTranscript.link lang id tlang) = .ok data)
    (hxml : w.unmarshalTranscript data = .ok sub)
    (hok : (getTranscript w t lang id tlang).2 = none) :
    (getTranscript w t lang id tlang).1.Lines.length = sub.Lines.length ∧
    (getTranscript w t lang id tlang).1.Lines.map (fun l => (l.Text, l.Start, l.Dur))
      = sub.Lines.map (fun l => (l.Text, l.Start, l.Dur)) ∧
    (∀ (i : Nat) (l : Line), sub.Lines[i]? = some l →
      ∃ l2, (getTranscript w t lang id tlang).1.Lines[i]? = some l2 ∧
        l2.Text = l.Text ∧ l2.Start = l.Start ∧ l2.Dur = l.Dur) := by
  simp only [getTranscript, hraw, hxml] at hok ⊢
  refine ⟨getTranscript.loop_length _ _, getTranscript.loop_fields _ _, ?_⟩
  intro i l hl
  obtain ⟨s, d, -, -, h⟩ := getTranscript.loop_ok w.quote sub.Lines hok i l hl
  exact ⟨_, h, rfl, rfl, rfl⟩

/-- C3: after a successful fetch and XML decoding, `getTranscript` returns an
error if and only if some decoded line has a `Start` or a `Dur` that
`ParseFloat` rejects; the empty string, which a missing attribute leaves, is
rejected. -/
theorem getTranscript_error_iff (w : World) (t : Transcript) (lang id tlang : String)
    (data : List UInt8) (sub : Transcript)
    (hraw : getRawData w (getTranscript.link lang id tlang) = .ok data)
    (hxml : w.unmarshalTranscript data = .ok sub) :
    ((getTranscript w t lang id tlang).2 ≠ none ↔
      ∃ l ∈ sub.Lines, (∃ e, ParseFloat l.Start = .error e) ∨ (∃ e, ParseFloat l.Dur = .error e)) ∧
    (∃ e, ParseFloat "" = .error e) := by
  constructor
  · simp only [getTranscript, hraw, hxml, ne_eq, getTranscript.loop_none_iff]
    constructor
    · intro h
      by_contra hno
      apply h
      intro l hl
      constructor
      · cases h1 : ParseFloat l.Start with
        | error e => exact absurd ⟨l, hl, Or.inl ⟨e, h1⟩⟩ hno
        | ok s => exact ⟨s, rfl⟩
      · cases h2 : ParseFloat l.Dur with
        | error e => exact absurd ⟨l, hl, Or.inr ⟨e, h2⟩⟩ hno
        | ok d => exact ⟨d, rfl⟩
    · rintro ⟨l, hl, hbad⟩ hall
      obtain ⟨⟨s, hs⟩, ⟨d, hd⟩⟩ := hall l hl
      rcases hbad with ⟨e, he⟩ | ⟨e, he⟩
      · rw [hs] at he
        cases he
      · rw [hd] at he
        cases he
  · exact ⟨_, rfl⟩

/-- C9, on two lines that parse. -/
theorem getTranscript_frame_witness :
    (getTranscript (exampleWorld exampleOK exampleLines) {} "de" "x" "").2 = none ∧
    (getTranscript (exampleWorld exampleOK exampleLines) {} "de" "x" "").1.Lines.length = 2 ∧
    ∃ l2, (getTranscript (exampleWorld exampleOK exampleLines) {} "de" "x" "").1.Lines[1]?
        = some l2 ∧ l2.Text = "Welt" ∧ l2.Start = "0" ∧ l2.Dur = "0" := by
  have h := getTranscript_frame (exampleWorld exampleOK exampleLines) {} "de" "x" "" []
    ⟨exampleLines⟩ rfl rfl (by decide!)
  exact ⟨by decide!, h.1, h.2.2 1 ⟨"Welt", "0", "0", ""⟩ rfl⟩

/-- C3, on lines of which the second has a malformed `start`. -/
theorem getTranscript_error_iff_witness :
    (getTranscript (exampleWorld exampleOK exampleBadLines) {} "de" "x" "").2 ≠ none := by
  refine (getTranscript_error_iff (exampleWorld exampleOK exampleBadLines) {} "de" "x" "" []
    ⟨exampleBadLines⟩ rfl rfl).1.2 ⟨⟨"Welt", "abc", "1", ""⟩, ?_, Or.inl ⟨_, rfl⟩⟩
  simp [exampleBadLines]

/-! ## C1, C2: the end of a line -/

/-- C1: when `Start` and `Dur` of every decoded line parse, `getTranscript`
succeeds and line `i` of its transcript is decoded line `i` with `End` set to
`FormatFloat(start + dur, 'f', 2, 64)`; a line with start `1.5` and dur `2.25`
gets the end `3.75`, a line with start `0` and dur `0` the end `0.00`. -/
theorem getTranscript_sets_end (w : World) (t : Transcript) (lang id tlang : String)
    (data : List UInt8) (sub : Transcript)
    (hraw : getRawData w (getTranscript.link lang id tlang) = .ok data)
    (hxml : w.unmarshalTranscript data = .ok sub)
    (hparse : ∀ l ∈ sub.Lines,
      (∃ s, ParseFloat l.Start = .ok s) ∧ (∃ d, ParseFloat l.Dur = .ok d)) :
    (getTranscript w t lang id tlang).2 = none ∧
    (getTranscript w t lang id tlang).1.Lines.length = sub.Lines.length ∧
    (∀ (i : Nat) (l : Line), sub.Lines[i]? = some l →
      ∃ s d, ParseFloat l.Start = .ok s ∧ ParseFloat l.Dur = .ok d ∧
        (getTranscript w t lang id tlang).1.Lines[i]?
          = some { l with End := FormatFloat (s + d) 2 }) ∧
    (∀ (i : Nat) (l : Line), sub.Lines[i]? = some l → l.Start = "1.5" → l.Dur = "2.25" →
      (getTranscript w t lang id tlang).1.Lines[i]? = some { l with End := "3.75" }) ∧
    (∀ (i : Nat) (l : Line), sub.Lines[i]? = some l → l.Start = "0" → l.Dur = "0" →
      (getTranscript w t lang id tlang).1.Lines[i]? = some { l with End := "0.00" }) := by
  have hok : (getTranscript.loop w.quote sub.Lines).2 = none :=
    (getTranscript.loop_none_iff w.quote sub.Lines).2 hparse
  simp only [getTranscript, hraw, hxml]
  refine ⟨hok, getTranscript.loop_length _ _, ?_, ?_, ?_⟩
  · intro i l hl
    exact getTranscript.loop_ok w.quote sub.Lines hok i l hl
  · intro i l hl h1 h2
    obtain ⟨s, d, hs, hd, h⟩ := getTranscript.loop_ok w.quote sub.Lines hok i l hl
    have es : ParseFloat "1.5" = .ok (.finite false 6755399441055744 1022) := by decide!
    have ed : ParseFloat "2.25" = .ok (.finite false 5066549580791808 1023) := by decide!
    rw [h1, es] at hs
    rw [h2, ed] at hd
    cases hs
    cases hd
    rw [h]
    have e : FormatFloat
        (.finite false 6755399441055744 1022 + .finite false 5066549580791808 1023) 2
          = "3.75" := by decide!
    rw [e]
  · intro i l hl h1 h2
    obtain ⟨s, d, hs, hd, h⟩ := getTranscript.loop_ok w.quote sub.Lines hok i l hl
    have es : ParseFloat "0" = .ok (.finite false 0 0) := by decide!
    rw [h1, es] at hs
    rw [h2, es] at hd
    cases hs
    cases hd
    rw [h]
    have e : FormatFloat (.finite false 0 0 + .finite false 0 0) 2 = "0.00" := by decide!
    rw [e]

/-- C1, on the lines `(1.5, 2.25)` and `(0, 0)`. -/
theorem getTranscript_sets_end_witness :
    (getTranscript (exampleWorld exampleOK exampleLines) {} "de" "x" "").2 = none ∧
    (getTranscript (exampleWorld exampleOK exampleLines) {} "de" "x" "").1.Lines[0]?
      = some ⟨"Hallo", "1.5", "2.25", "3.75"⟩ ∧
    (getTranscript (exampleWorld exampleOK exampleLines) {} "de" "x" "").1.Lines[1]?
      = some ⟨"Welt", "0", "0", "0.00"⟩ := by
  have hparse : ∀ l ∈ exampleLines,
      (∃ s, ParseFloat l.Start = .ok s) ∧ (∃ d, ParseFloat l.Dur = .ok d) := by
    intro l hl
    simp only [exampleLines, List.mem_cons, List.mem_singleton, List.not_mem_nil, or_false] at hl
    rcases hl with rfl | rfl
    · exact ⟨⟨.finite false 6755399441055744 1022, by decide!⟩,
        ⟨.finite false 5066549580791808 1023, by decide!⟩⟩
    · exact ⟨⟨.finite false 0 0, by decide!⟩, ⟨.finite false 0 0, by decide!⟩⟩
  have h := getTranscript_sets_end (exampleWorld exampleOK exampleLines) {} "de" "x" "" []
    ⟨exampleLines⟩ rfl rfl hparse
  exact ⟨h.1, h.2.2.2.1 0 ⟨"Hallo", "1.5", "2.25", ""⟩ rfl rfl rfl,
    h.2.2.2.2 1 ⟨"Welt", "0", "0", ""⟩ rfl rfl rfl⟩

/-- C2, as stated, fails: `1e308` and `inf` are accepted by `ParseFloat`, the
call succeeds, and the ends are `+Inf`, `+Inf` and `NaN`, none of them a
numeral with two fraction digits. -/
theorem end_not_fixed2 :
    getTranscript (exampleWorld exampleOK exampleInfLines) {} "de" "x" ""
      = (⟨[⟨"Hallo", "1e308", "1e308", "+Inf"⟩, ⟨"Welt", "inf", "0", "+Inf"⟩,
            ⟨"!", "NaN", "1", "NaN"⟩]⟩, none) ∧
    isFixed2 "+Inf" = false ∧ isFixed2 "NaN" = false := by
  decide!

/-- C2, amended: in a transcript that `getTranscript` returns without error,
the end of every line is the text of the float64 sum of its start and dur: a
numeral with exactly two fraction digits (an optional minus sign, digits, a
point, two digits) when the sum is finite, and `NaN`, `+Inf` or `-Inf` when it
is not. -/
theorem end_shape (w : World) (t : Transcript) (lang id tlang : String)
    (hok : (getTranscript w t lang id tlang).2 = none) :
    ∀ l ∈ (getTranscript w t lang id tlang).1.Lines,
      ∃ s d, ParseFloat l.Start = .ok s ∧ ParseFloat l.Dur = .ok d ∧
        l.End = FormatFloat (s + d) 2 ∧
        ((s + d).isFinite = true → isFixed2 l.End = true) ∧
        ((s + d).isFinite = false → l.End = "NaN" ∨ l.End = "+Inf" ∨ l.End = "-Inf") := by
  simp only [getTranscript] at hok ⊢
  cases hraw : getRawData w (getTranscript.link lang id tlang) with
  | error e => simp [hraw] at hok
  | ok data =>
    simp only [hraw] at hok ⊢
    cases hxml : w.unmarshalTranscript data with
    | error e => simp [hxml] at hok
    | ok sub =>
      simp only [hxml] at hok ⊢
      intro l hl
      obtain ⟨s, d, hs, hd, he⟩ := getTranscript.loop_mem w.quote sub.Lines hok l hl
      refine ⟨s, d, hs, hd, he, ?_, ?_⟩
      · intro hfin
        rw [he]
        cases hsum : s + d with
        | nan => simp [hsum, Float64.isFinite] at hfin
        | inf neg => simp [hsum, Float64.isFinite] at hfin
        | finite neg m e => exact isFixed2_FormatFloat neg m e
      · intro hfin
        rw [he]
        cases hsum : s + d with
        | nan => exact Or.inl rfl
        | inf neg =>
          cases neg with
          | false => exact Or.inr (Or.inl rfl)
          | true => exact Or.inr (Or.inr rfl)
        | finite neg m e => simp [hsum, Float64.isFinite] at hfin

/-- C2 amended, on the lines `(1.5, 2.25)` and `(0, 0)`. -/
theorem end_shape_witness :
    ∃ s d, ParseFloat "1.5" = .ok s ∧ ParseFloat "2.25" = .ok d ∧
      "3.75" = FormatFloat (s + d) 2 ∧
      ((s + d).isFinite = true → isFixed2 "3.75" = true) ∧
      ((s + d).isFinite = false → "3.75" = "NaN" ∨ "3.75" = "+Inf" ∨ "3.75" = "-Inf") :=
  end_shape (exampleWorld exampleOK exampleLines) {} "de" "x" "" (by decide!)
    ⟨"Hallo", "1.5", "2.25", "3.75"⟩ (by decide!)

/-! ## C4: a malformed start -/

/-- C4, as stated, fails: with a malformed `start` in the second of three
decoded lines, `getTranscript` fails and the transcript it was called on, empty
before, holds the three decoded lines, the first with its end computed. -/
theorem malformed_start_keeps_lines :
    getTranscript (exampleWorld exampleOK exampleBadLines) {} "de" "x" ""
      = (⟨[⟨"Hallo", "1", "2", "3.00"⟩, ⟨"Welt", "abc", "1", ""⟩, ⟨"!", "3", "", ""⟩]⟩,
          some "Unable to parse tempStart: strconv.ParseFloat: parsing \"abc\": invalid syntax") ∧
    (getTranscript (exampleWorld exampleOK exampleBadLines) {} "de" "x" "").1.Lines.length ≠ 0 := by
  decide!

/-- C4, amended: when a decoded line has a malformed `start`, `getTranscript`
fails with the parse error of the first line that does not parse, and
`NewTranscript` answers 500 with that error alone.  The transcript
`getTranscript` was called on is left holding all the decoded lines: those
before that line with their end computed, that line and the later ones as they
were decoded. -/
theorem getTranscript_malformed (w : World) (t : Transcript) (lang id tlang : String)
    (data : List UInt8) (sub : Transcript)
    (hraw : getRawData w (getTranscript.link lang id tlang) = .ok data)
    (hxml : w.unmarshalTranscript data = .ok sub)
    (hbad : ∃ l ∈ sub.Lines, ∃ e, ParseFloat l.Start = .error e) :
    ∃ (pre : List Line) (bad : Line) (post : List Line) (err : NumError) (done : List Line),
      sub.Lines = pre ++ bad :: post ∧
      (∀ l ∈ pre, (∃ s, ParseFloat l.Start = .ok s) ∧ (∃ d, ParseFloat l.Dur = .ok d)) ∧
      (ParseFloat bad.Start = .error err ∨
        ((∃ s, ParseFloat bad.Start = .ok s) ∧ ParseFloat bad.Dur = .error err)) ∧
      getTranscript w t lang id tlang
        = (⟨done ++ bad :: post⟩, some ("Unable to parse tempStart: " ++ err.Error w.quote)) ∧
      done.length = pre.length ∧
      (∀ (i : Nat) (l : Line), pre[i]? = some l →
        ∃ s d, ParseFloat l.Start = .ok s ∧ ParseFloat l.Dur = .ok d ∧
          done[i]? = some { l with End := FormatFloat (s + d) 2 }) ∧
      (∀ c : Query, DefaultQuery c "lang" "de" = lang → DefaultQuery c "id" "dL5oGKNlR6I" = id →
        DefaultQuery c "tlang" "" = tlang →
        NewTranscript w c
          = ⟨500, .H [("error", "Unable to parse tempStart: " ++ err.Error w.quote)]⟩) := by
  have hbad2 : ∃ l ∈ sub.Lines,
      ¬ ((∃ s, ParseFloat l.Start = .ok s) ∧ (∃ d, ParseFloat l.Dur = .ok d)) := by
    obtain ⟨l, hl, e, he⟩ := hbad
    refine ⟨l, hl, ?_⟩
    rintro ⟨⟨s, hs⟩, -⟩
    rw [hs] at he
    cases he
  obtain ⟨pre, bad, post, hsplit, hpre, hb⟩ := exists_first_bad _ sub.Lines hbad2
  have hnone : (getTranscript.loop w.quote pre).2 = none :=
    (getTranscript.loop_none_iff w.quote pre).2 hpre
  obtain ⟨err, herr, hloop⟩ := getTranscript.loop_stop w.quote pre post bad hnone hb
  have hget : ∀ t2 : Transcript, getTranscript w t2 lang id tlang
      = (⟨(getTranscript.loop w.quote pre).1 ++ bad :: post⟩,
          some ("Unable to parse tempStart: " ++ err.Error w.quote)) := by
    intro t2
    simp only [getTranscript, hraw, hxml, hsplit, hloop]
  refine ⟨pre, bad, post, err, (getTranscript.loop w.quote pre).1, hsplit, hpre, herr, hget t,
    getTranscript.loop_length _ _, ?_, ?_⟩
  · intro i l hl
    exact getTranscript.loop_ok w.quote pre hnone i l hl
  · intro c h1 h2 h3
    simp only [NewTranscript, h1, h2, h3, hget]
    rfl

/-- C4 amended, on a request without parameters and lines of which the second
has the start `abc`. -/
theorem getTranscript_malformed_witness :
    ∃ msg, NewTranscript (exampleWorld exampleOK exampleBadLines) emptyQuery
      = ⟨500, .H [("error", msg)]⟩ := by
  obtain ⟨pre, bad, post, err, done, -, -, -, -, -, -, h⟩ :=
    getTranscript_malformed (exampleWorld exampleOK exampleBadLines) {} "de" "dL5oGKNlR6I" ""
      [] ⟨exampleBadLines⟩ rfl rfl
      ⟨⟨"Welt", "abc", "1", ""⟩, by simp [exampleBadLines], _, rfl⟩
  exact ⟨_, h emptyQuery rfl rfl rfl⟩

end Controllers
